import Mathlib

/-!
Balance aggregation proxy: client pool, fan-out and consensus.

A shallow embedding of `internal/client/client.go` and
`internal/service/balance_service.go`.

* A `*big.Int` is `BigIntPtr`: the nil pointer or an integer.
* A Go `map[string]V` is `GoMap V`, an association list with unique keys. The
  order in which `range` visits a map is not fixed by the language: it is a
  field of `GoEnv`.
* `sort.Slice` is a library routine and is not stable: it is a field of
  `GoEnv`, constrained by its contract only (`GoEnv.Lawful`).
* The order in which the goroutines deliver on the result channel is a field
  of `Scheduler`; a `Scheduler.Fair` one delivers every message once.
* A Go panic (index out of range) is `none` of an `Option`; a returned `error`
  is `Except.error` of its message.
* Logging and metrics are side effects outside the model.
* The environment `os.Getenv` reads is a function from keys to values; the
  loop of `getClientConfigsFromEnv` has no bound of its own and takes fuel.
* The HTTP exchange of one call is an `HTTPReply`, supplied by a `Transport`;
  the library decoder `hexutil.DecodeBig` is a parameter of `QueryBalance`,
  and `hexDecodeBig` is one such decoder.
-/

namespace Alluvial

/-! ## `*big.Int` -/

/-- A `*big.Int`: the nil pointer, or an arbitrary-precision integer. -/
inductive BigIntPtr where
  | nil : BigIntPtr
  | int (v : Int) : BigIntPtr
  deriving DecidableEq, Repr

/-- The method `(*big.Int).String()`: `"<nil>"` for the nil pointer, else the
decimal digits, with a leading minus sign for a negative number. -/
def BigIntPtr.String : BigIntPtr → String
  | .nil => "<nil>"
  | .int (Int.ofNat n) => Nat.repr n
  | .int (Int.negSucc n) => "-" ++ Nat.repr (n + 1)

/-- Value of a decimal digit character. -/
def digitVal (c : Char) : Nat := c.toNat - 48

/-- Reads a run of decimal digits, most significant first, onto `acc`. -/
def readDigits (acc : Nat) (cs : List Char) : Nat :=
  cs.foldl (fun a c => a * 10 + digitVal c) acc

/-- A character list that begins with a decimal digit. -/
def startsWithDigit (cs : List Char) : Prop :=
  ∃ d, d < 10 ∧ ∃ tl, cs = Nat.digitChar d :: tl

/-! ## Go maps keyed by strings -/

/-- A Go `map[string]V`: key/value pairs, each key at most once. -/
abbrev GoMap (V : Type) := List (String × V)

/-- The comma-ok read `v, exists := m[k]`. -/
def GoMap.lookup {V : Type} : GoMap V → String → Option V
  | [], _ => none
  | (k', v) :: rest, k => if k' = k then some v else GoMap.lookup rest k

/-- The assignment `m[k] = v`. -/
def GoMap.store {V : Type} : GoMap V → String → V → GoMap V
  | [], k, v => [(k, v)]
  | (k', v') :: rest, k, v =>
    if k' = k then (k, v) :: rest else (k', v') :: GoMap.store rest k v

/-- The keys of a map. -/
def GoMap.keys {V : Type} (m : GoMap V) : List String := m.map Prod.fst

/-- The builtin `len(m)`. -/
def GoMap.len {V : Type} (m : GoMap V) : Nat := m.length

/-! ## Client pool (`internal/client/client.go`) -/

/-- The struct `Client`; `Timeout` stands for the `HTTPClient` built from it. -/
structure Client where
  URL : String
  Name : String
  Timeout : Nat
  IsAvailable : Bool
  deriving DecidableEq, Repr

/-- The struct `PoolStruct`: the configured endpoints, in configuration order. -/
structure PoolStruct where
  clients : List Client
  deriving DecidableEq, Repr

/-- The struct `BalanceResponse`. -/
structure BalanceResponse where
  ClientName : String
  Balance : BigIntPtr
  Error : Option String
  deriving DecidableEq, Repr

/-- The method `HasAvailableClients`. -/
def HasAvailableClients (p : PoolStruct) : Bool :=
  p.clients.any fun client => client.IsAvailable

/-- The method `GetAvailableClients`: the loop appends every client whose
flag is set. -/
def GetAvailableClients (p : PoolStruct) : List Client :=
  p.clients.foldl
    (fun available client => if client.IsAvailable then available ++ [client] else available) []

/-- The method `GetAllClients`: a copy of the configured sequence. -/
def GetAllClients (p : PoolStruct) : List Client := p.clients

/-- The registry contract `list_available` in the words of the specification:
the configured sequence filtered by the availability flag. -/
def listAvailableSpec (p : PoolStruct) : List Client :=
  (GetAllClients p).filter fun c => c.IsAvailable

/-- The order in which the result channel hands over the messages the
goroutines sent. -/
structure Scheduler where
  recvOrder : List BalanceResponse → List BalanceResponse

/-- Every message sent on the channel is received exactly once. -/
def Scheduler.Fair (s : Scheduler) : Prop := ∀ l, (s.recvOrder l).Perm l

/-- Calls complete in dispatch order. -/
def inOrderScheduler : Scheduler := ⟨fun l => l⟩

/-- Calls complete in the reverse of dispatch order. -/
def reverseScheduler : Scheduler := ⟨fun l => l.reverse⟩

/-- The outcome of `Client.QueryBalance` for one endpoint, address and block
selector: an error message, or the decoded balance. -/
abbrev QueryFn := Client → String → String → Except String Int

/-- The message one goroutine of `QueryBalanceFromAllClients` sends. -/
def sendResponse (QueryBalance : QueryFn) (address blockParam : String) (c : Client) :
    BalanceResponse :=
  match QueryBalance c address blockParam with
  | .ok balance => { ClientName := c.Name, Balance := .int balance, Error := none }
  | .error err => { ClientName := c.Name, Balance := .nil, Error := some err }

/-- The receive loop of `QueryBalanceFromAllClients`: keeps the responses
without error, in the order received. -/
def collectResponses (received : List BalanceResponse) : List BalanceResponse :=
  received.foldl (fun responses resp => if resp.Error = none then responses ++ [resp] else responses) []

/-- The method `QueryBalanceFromAllClients`. -/
def QueryBalanceFromAllClients (sched : Scheduler) (QueryBalance : QueryFn) (p : PoolStruct)
    (address blockParam : String) : Except String (List BalanceResponse) :=
  let clients := GetAvailableClients p
  if clients.length = 0 then
    .error "no Ethereum clients available"
  else
    let sent := clients.map (sendResponse QueryBalance address blockParam)
    let responses := collectResponses (sched.recvOrder sent)
    if responses.length = 0 then
      .error "failed to retrieve balance from any client"
    else
      .ok responses

/-- The messages the goroutines of one fan-out send, in snapshot order. -/
def dispatchedResponses (QueryBalance : QueryFn) (p : PoolStruct) (address blockParam : String) :
    List BalanceResponse :=
  (GetAvailableClients p).map (sendResponse QueryBalance address blockParam)

/-- The result set in the words of the specification: one reply per available
endpoint whose call succeeded, carrying its name and balance, in snapshot
order. -/
def successfulReplies (QueryBalance : QueryFn) (p : PoolStruct) (address blockParam : String) :
    List BalanceResponse :=
  (p.clients.filter fun c => c.IsAvailable).filterMap fun c =>
    match QueryBalance c address blockParam with
    | .ok balance => some { ClientName := c.Name, Balance := .int balance, Error := none }
    | .error _ => none

/-! ## Consensus (`internal/service/balance_service.go`) -/

/-- The local struct `balanceCount`. -/
structure balanceCount where
  balance : String
  count : Nat
  order : Nat
  deriving DecidableEq, Repr

/-- The comparator handed to `sort.Slice`: larger count first, then smaller
first position. -/
def balanceLess (a b : balanceCount) : Bool :=
  if a.count ≠ b.count then decide (a.count > b.count) else decide (a.order < b.order)

/-- A comparator that `sort.Slice` accepts: a strict weak order. -/
def StrictWeak {α : Type} (less : α → α → Bool) : Prop :=
  (∀ a, less a a = false) ∧
  (∀ a b c, less a b = true → less b c = true → less a c = true) ∧
  (∀ a b c, less a b = false → less b c = false → less a c = false)

/-- What the Go language and library leave open: the order in which `range`
visits `balanceCounts`, and the unstable `sort.Slice`. -/
structure GoEnv where
  mapRange : GoMap Nat → List (String × Nat)
  sortSlice : (balanceCount → balanceCount → Bool) → List balanceCount → List balanceCount

/-- The contract of `range` over a map (every entry once) and of `sort.Slice`
(a permutation in which no element is less than an earlier one). -/
def GoEnv.Lawful (env : GoEnv) : Prop :=
  (∀ m, (env.mapRange m).Perm m) ∧
  (∀ less l, (env.sortSlice less l).Perm l) ∧
  (∀ less l, StrictWeak less →
    (env.sortSlice less l).Pairwise fun a b => less b a = false)

/-- One environment: `range` visits in insertion order, `sort.Slice` is an
insertion sort. -/
def stdEnv : GoEnv :=
  { mapRange := fun m => m
    sortSlice := fun less l => l.insertionSort fun a b => less b a = false }

/-- Another environment: `range` visits in reverse insertion order. -/
def revEnv : GoEnv :=
  { mapRange := fun m => m.reverse
    sortSlice := fun less l => l.insertionSort fun a b => less b a = false }

/-- The three maps the counting loop of `getConsensusBalance` fills. -/
structure Tally where
  balanceOrder : GoMap Nat
  balanceCounts : GoMap Nat
  balanceMap : GoMap BigIntPtr
  deriving DecidableEq, Repr

/-- One iteration of the counting loop, at index `i`. -/
def tallyStep (t : Tally) (i : Nat) (resp : BalanceResponse) : Tally :=
  let balanceStr := resp.Balance.String
  { balanceOrder :=
      if (GoMap.lookup t.balanceOrder balanceStr).isSome then t.balanceOrder
      else GoMap.store t.balanceOrder balanceStr i
    balanceCounts :=
      GoMap.store t.balanceCounts balanceStr ((GoMap.lookup t.balanceCounts balanceStr).getD 0 + 1)
    balanceMap := GoMap.store t.balanceMap balanceStr resp.Balance }

/-- The counting loop from index `i` on. -/
def tallyLoop : Nat → List BalanceResponse → Tally → Tally
  | _, [], t => t
  | i, resp :: rest, t => tallyLoop (i + 1) rest (tallyStep t i resp)

/-- The maps after the counting loop. -/
def tally (responses : List BalanceResponse) : Tally :=
  tallyLoop 0 responses { balanceOrder := [], balanceCounts := [], balanceMap := [] }

/-- The slice `sortedBalances` before it is sorted. -/
def countedBalances (env : GoEnv) (responses : List BalanceResponse) : List balanceCount :=
  (env.mapRange (tally responses).balanceCounts).map fun e =>
    { balance := e.1, count := e.2,
      order := (GoMap.lookup (tally responses).balanceOrder e.1).getD 0 }

/-- The slice `sortedBalances` after `sort.Slice`. -/
def sortedBalances (env : GoEnv) (responses : List BalanceResponse) : List balanceCount :=
  env.sortSlice balanceLess (countedBalances env responses)

/-- The function `getConsensusBalance`; `none` is the index-out-of-range panic
of `sortedBalances[0]`. -/
def getConsensusBalance (env : GoEnv) (responses : List BalanceResponse) (_address : String) :
    Option (BigIntPtr × Bool) :=
  match responses with
  | [resp] => some (resp.Balance, false)
  | _ =>
    let hasDiscrepancy := decide (GoMap.len (tally responses).balanceCounts > 1)
    match sortedBalances env responses with
    | [] => none
    | first :: _ =>
      some ((GoMap.lookup (tally responses).balanceMap first.balance).getD .nil, hasDiscrepancy)

/-- The interface `Pool`, as far as `BalanceService` uses it. -/
structure Pool where
  QueryBalanceFromAllClients : String → String → Except String (List BalanceResponse)

/-- A `PoolStruct` seen through the interface `Pool`. -/
def PoolStruct.toPool (sched : Scheduler) (QueryBalance : QueryFn) (p : PoolStruct) : Pool :=
  ⟨QueryBalanceFromAllClients sched QueryBalance p⟩

/-- The struct `BalanceService`. -/
structure BalanceService where
  clientPool : Pool

/-- The method `GetBalance`; `none` is a panic. -/
def GetBalance (env : GoEnv) (s : BalanceService) (address blockParam : String) :
    Option (Except String BigIntPtr) :=
  match s.clientPool.QueryBalanceFromAllClients address blockParam with
  | .error err => some (.error ("failed to query balances: " ++ err))
  | .ok responses =>
    match getConsensusBalance env responses address with
    | none => none
    | some (consensusBalance, _) => some (.ok consensusBalance)

/-- The balances the replies carry, in reply order. -/
def balances (responses : List BalanceResponse) : List BigIntPtr :=
  responses.map fun r => r.Balance

/-- The map keys of the replies, in reply order. -/
def balanceStrs (responses : List BalanceResponse) : List String :=
  responses.map fun r => r.Balance.String

/-- Two available endpoints, for examples. -/
def twoClients : PoolStruct :=
  ⟨[⟨"http://a", "a", 10, true⟩, ⟨"http://b", "b", 10, true⟩]⟩

/-- The first endpoint answers 100, every other endpoint 200. -/
def splitAnswers : QueryFn := fun c _ _ => if c.Name = "a" then .ok 100 else .ok 200

/-- Three available endpoints, for examples. -/
def threeClients : PoolStruct :=
  ⟨[⟨"http://1", "client1", 10, true⟩, ⟨"http://2", "client2", 10, true⟩,
    ⟨"http://3", "client3", 10, true⟩]⟩

/-- The endpoint `client2` answers 2000, every other endpoint 1000. -/
def discrepancyAnswers : QueryFn := fun c _ _ => if c.Name = "client2" then .ok 2000 else .ok 1000

/-- Replies, all without error, carrying the given integers. -/
def repliesOf (vs : List Int) : List BalanceResponse :=
  vs.map fun v => { ClientName := "client", Balance := .int v, Error := none }

/-! ## Configuration and registry updates -/

/-- The struct `config.ClientConfig`; `Timeout` in seconds. -/
structure ClientConfig where
  URL : String
  Name : String
  Timeout : Nat
  deriving DecidableEq, Repr

/-- The loop of `getClientConfigsFromEnv` from index `i` on, reading the
environment through `getenv`; `none` when `fuel` iterations do not reach an
unset URL. -/
def getClientConfigsLoop (getenv : String → String) :
    Nat → Nat → List ClientConfig → Option (List ClientConfig)
  | 0, _, _ => none
  | fuel + 1, i, clients =>
    let urlKey := "ETH_CLIENT_" ++ Nat.repr i ++ "_URL"
    let nameKey := "ETH_CLIENT_" ++ Nat.repr i ++ "_NAME"
    let url := getenv urlKey
    let name := getenv nameKey
    if url = "" then some clients
    else
      let name := if name = "" then "client-" ++ Nat.repr i else name
      getClientConfigsLoop getenv fuel (i + 1)
        (clients ++ [{ URL := url, Name := name, Timeout := 10 }])

/-- The function `getClientConfigsFromEnv`. -/
def getClientConfigsFromEnv (getenv : String → String) (fuel : Nat) :
    Option (List ClientConfig) :=
  getClientConfigsLoop getenv fuel 1 []

/-- The function `NewClient`. -/
def NewClient (cfg : ClientConfig) : Client :=
  { URL := cfg.URL, Name := cfg.Name, Timeout := cfg.Timeout, IsAvailable := true }

/-- The function `NewPool`. -/
def NewPool (clientConfigs : List ClientConfig) : Except String PoolStruct :=
  if clientConfigs.length = 0 then
    .error "no client configurations provided"
  else
    .ok { clients := clientConfigs.foldl (fun clients cfg => clients ++ [NewClient cfg]) [] }

/-- The loop of `SetClientAvailability`: the first client with the name gets
the flag, then the loop breaks. -/
def setFirstMatch : List Client → String → Bool → List Client
  | [], _, _ => []
  | client :: rest, clientName, isAvailable =>
    if client.Name = clientName then { client with IsAvailable := isAvailable } :: rest
    else client :: setFirstMatch rest clientName isAvailable

/-- The method `SetClientAvailability`. -/
def SetClientAvailability (p : PoolStruct) (clientName : String) (isAvailable : Bool) :
    PoolStruct :=
  { clients := setFirstMatch p.clients clientName isAvailable }

/-- The endpoint names of a pool, in sequence order. -/
def poolNames (p : PoolStruct) : List String := p.clients.map fun c => c.Name

/-- The pool after a sequence of `SetClientAvailability` calls. -/
def afterUpdates (p : PoolStruct) (updates : List (String × Bool)) : PoolStruct :=
  updates.foldl (fun q u => SetClientAvailability q u.1 u.2) p

/-- An environment that configures two endpoints under one name. -/
def duplicateNameEnv : String → String := fun key =>
  if key = "ETH_CLIENT_1_URL" then "http://a"
  else if key = "ETH_CLIENT_1_NAME" then "node"
  else if key = "ETH_CLIENT_2_URL" then "http://b"
  else if key = "ETH_CLIENT_2_NAME" then "node"
  else ""

/-- Two available endpoints under one name. -/
def sameNameClients : PoolStruct :=
  ⟨[⟨"http://a", "node", 10, true⟩, ⟨"http://b", "node", 10, true⟩]⟩

/-! ## One balance query (`Client.QueryBalance`) -/

/-- The `error` member of a JSON-RPC reply, decoded: absent members are zero. -/
structure rpcError where
  Code : Int
  Message : String
  deriving DecidableEq, Repr

/-- The local struct `result` that `QueryBalance` decodes the body into. -/
structure rpcResult where
  JSONRPC : String
  ID : Int
  Result : String
  Error : rpcError
  deriving DecidableEq, Repr

/-- A reply envelope on the wire, as far as the decoders look at it: the
`error` member is present or absent; other absent members are zero. -/
structure Envelope where
  jsonrpc : String
  id : Int
  result : String
  error : Option rpcError
  deriving DecidableEq, Repr

/-- The call `json.NewDecoder(resp.Body).Decode(&result)` on an envelope: an
absent `error` member leaves the zero struct. -/
def decodeEnvelope (e : Envelope) : rpcResult :=
  { JSONRPC := e.jsonrpc, ID := e.id, Result := e.result,
    Error := e.error.getD { Code := 0, Message := "" } }

/-- What the HTTP exchange of one call yields: the request cannot be built,
the transport fails, or a response arrives with its status code, raw body and
the body decoded as an envelope (or the decoder error). -/
inductive HTTPReply where
  | requestError (err : String) : HTTPReply
  | transportError (err : String) : HTTPReply
  | response (StatusCode : Nat) (body : String) (decoded : Except String Envelope) : HTTPReply

/-- The network: the exchange for an endpoint, address and block selector. -/
abbrev Transport := Client → String → String → HTTPReply

/-- The verb `%d` of `fmt` on an integer. -/
def fmtInt (i : Int) : String := (BigIntPtr.int i).String

/-- The method `Client.QueryBalance`, over the network `transport` and the
library decoder `hexutil.DecodeBig`. -/
def QueryBalance (transport : Transport) (DecodeBig : String → Except String Int) : QueryFn :=
  fun c address blockParam =>
    match transport c address blockParam with
    | .requestError err => .error ("error creating request: " ++ err)
    | .transportError err => .error ("request failed: " ++ err)
    | .response StatusCode body decoded =>
      if StatusCode ≠ 200 then
        .error ("received non-200 status code: " ++ Nat.repr StatusCode ++ ", body: " ++ body)
      else
        match decoded with
        | .error err => .error ("error parsing response: " ++ err)
        | .ok envelope =>
          let result := decodeEnvelope envelope
          if result.Error.Message ≠ "" then
            .error ("RPC error: " ++ result.Error.Message ++ " (code: " ++
              fmtInt result.Error.Code ++ ")")
          else
            match DecodeBig result.Result with
            | .error err => .error ("error parsing balance: " ++ err)
            | .ok balance => .ok balance

/-- The method `CheckClientHealth` of `health.go`, on the exchange of its
probe: healthy when the status is 200, the body decodes and the envelope has
no `error` member. -/
def CheckClientHealth (probe : HTTPReply) : Bool :=
  match probe with
  | .requestError _ => false
  | .transportError _ => false
  | .response StatusCode _ decoded =>
    if StatusCode ≠ 200 then false
    else
      match decoded with
      | .error _ => false
      | .ok envelope => envelope.error.isNone

/-- Value of a hexadecimal digit, as `decodeNibble` of `hexutil`. -/
def decodeNibble (c : Char) : Option Nat :=
  if '0' ≤ c ∧ c ≤ '9' then some (c.toNat - 48)
  else if 'A' ≤ c ∧ c ≤ 'F' then some (c.toNat - 55)
  else if 'a' ≤ c ∧ c ≤ 'f' then some (c.toNat - 87)
  else none

/-- Reads hexadecimal digits, most significant first, onto `acc`. -/
def readNibbles : Nat → List Char → Option Nat
  | acc, [] => some acc
  | acc, c :: cs =>
    match decodeNibble c with
    | none => none
    | some d => readNibbles (acc * 16 + d) cs

/-- One decoder for `hexutil.DecodeBig`: a `0x` prefix, at least one digit, no
leading zero, at most 64 hexadecimal digits. -/
def hexDecodeBig (input : String) : Except String Int :=
  match input.data with
  | [] => .error "empty hex string"
  | '0' :: x :: raw =>
    if x = 'x' ∨ x = 'X' then
      match raw with
      | [] => .error "hex string 0x"
      | d :: ds =>
        if ds.length > 0 ∧ d = '0' then .error "hex number with leading zero digits"
        else if (d :: ds).length > 64 then .error "hex number > 256 bits"
        else
          match readNibbles 0 (d :: ds) with
          | none => .error "invalid hex string"
          | some n => .ok (Int.ofNat n)
    else .error "hex string without 0x prefix"
  | _ => .error "hex string without 0x prefix"

/-- A reply with status 200 whose envelope carries a result and an `error`
member with an empty message. -/
def emptyMessageReply : HTTPReply :=
  .response 200 "" (.ok ⟨"2.0", 1, "0x10", some ⟨-32000, ""⟩⟩)

/-- A pool with one available endpoint. -/
def oneClient : PoolStruct := ⟨[⟨"http://a", "a", 10, true⟩]⟩

/-! ## The decimal rendering is injective -/

theorem digitVal_digitChar (d : Nat) (h : d < 10) : digitVal (Nat.digitChar d) = d := by
  interval_cases d <;> rfl

theorem digitChar_ne_minus (d : Nat) (h : d < 10) : Nat.digitChar d ≠ '-' := by
  interval_cases d <;> decide

theorem digitChar_ne_lt (d : Nat) (h : d < 10) : Nat.digitChar d ≠ '<' := by
  interval_cases d <;> decide

theorem readDigits_toDigitsCore (fuel : Nat) :
    ∀ (n : Nat) (ds : List Char), n < fuel →
      readDigits 0 (Nat.toDigitsCore 10 fuel n ds) = readDigits n ds := by
  induction fuel with
  | zero => intro n ds h; omega
  | succ fuel ih =>
    intro n ds h
    have hd : digitVal (Nat.digitChar (n % 10)) = n % 10 :=
      digitVal_digitChar _ (Nat.mod_lt _ (by decide))
    simp only [Nat.toDigitsCore]
    split
    · rename_i h0
      have h1 : n % 10 = n := by omega
      simp only [readDigits, List.foldl_cons, hd, Nat.zero_mul, Nat.zero_add]
      rw [h1]
    · rename_i h0
      rw [ih (n / 10) _ (by omega)]
      simp only [readDigits, List.foldl_cons, hd]
      congr 1
      omega

theorem readDigits_toDigits (n : Nat) : readDigits 0 (Nat.toDigits 10 n) = n := by
  have h := readDigits_toDigitsCore (n + 1) n [] (by omega)
  simpa [Nat.toDigits, readDigits] using h

theorem startsWithDigit_toDigitsCore (fuel : Nat) :
    ∀ (n : Nat) (ds : List Char), startsWithDigit ds →
      startsWithDigit (Nat.toDigitsCore 10 fuel n ds) := by
  induction fuel with
  | zero => intro n ds h; simpa [Nat.toDigitsCore] using h
  | succ fuel ih =>
    intro n ds _
    simp only [Nat.toDigitsCore]
    split
    · exact ⟨n % 10, Nat.mod_lt _ (by decide), ds, rfl⟩
    · exact ih _ _ ⟨n % 10, Nat.mod_lt _ (by decide), ds, rfl⟩

theorem startsWithDigit_toDigits (n : Nat) : startsWithDigit (Nat.toDigits 10 n) := by
  simp only [Nat.toDigits, Nat.toDigitsCore]
  split
  · exact ⟨n % 10, Nat.mod_lt _ (by decide), [], rfl⟩
  · exact startsWithDigit_toDigitsCore _ _ _ ⟨n % 10, Nat.mod_lt _ (by decide), [], rfl⟩

theorem natRepr_injective : Function.Injective Nat.repr := by
  intro a b h
  have h2 : Nat.toDigits 10 a = Nat.toDigits 10 b := congrArg String.data h
  rw [← readDigits_toDigits a, ← readDigits_toDigits b, h2]

theorem natRepr_data (n : Nat) : (Nat.repr n).data = Nat.toDigits 10 n := rfl

theorem bigIntString_injective : Function.Injective BigIntPtr.String := by
  intro a b h
  have hdata := congrArg String.data h
  cases a with
  | nil =>
    cases b with
    | nil => rfl
    | int w =>
      exfalso
      cases w with
      | ofNat m =>
        obtain ⟨d, hd, tl, htl⟩ := startsWithDigit_toDigits m
        simp only [BigIntPtr.String, natRepr_data, htl] at hdata
        have := (List.cons.inj hdata).1
        exact digitChar_ne_lt d hd this.symm
      | negSucc m =>
        simp [BigIntPtr.String] at hdata
  | int v =>
    cases b with
    | nil =>
      exfalso
      cases v with
      | ofNat m =>
        obtain ⟨d, hd, tl, htl⟩ := startsWithDigit_toDigits m
        simp only [BigIntPtr.String, natRepr_data, htl] at hdata
        have := (List.cons.inj hdata).1
        exact digitChar_ne_lt d hd this
      | negSucc m =>
        simp [BigIntPtr.String] at hdata
    | int w =>
      cases v with
      | ofNat m =>
        cases w with
        | ofNat k =>
          have := natRepr_injective h
          subst this; rfl
        | negSucc k =>
          exfalso
          obtain ⟨d, hd, tl, htl⟩ := startsWithDigit_toDigits m
          simp only [BigIntPtr.String, natRepr_data, htl, String.data_append] at hdata
          have := (List.cons.inj hdata).1
          exact digitChar_ne_minus d hd this
      | negSucc m =>
        cases w with
        | ofNat k =>
          exfalso
          obtain ⟨d, hd, tl, htl⟩ := startsWithDigit_toDigits k
          simp only [BigIntPtr.String, natRepr_data, htl, String.data_append] at hdata
          have := (List.cons.inj hdata).1
          exact digitChar_ne_minus d hd this.symm
        | negSucc k =>
          simp only [BigIntPtr.String, String.data_append] at hdata
          have h3 := List.append_cancel_left hdata
          have h4 : Nat.repr (m + 1) = Nat.repr (k + 1) := by
            have : (⟨(Nat.repr (m + 1)).data⟩ : String) = ⟨(Nat.repr (k + 1)).data⟩ := by rw [h3]
            exact this
          have := natRepr_injective h4
          have : m = k := by omega
          subst this; rfl


/-! ## Go maps -/

theorem GoMap.lookup_store {V : Type} (m : GoMap V) (k k' : String) (v : V) :
    GoMap.lookup (GoMap.store m k v) k' = if k = k' then some v else GoMap.lookup m k' := by
  induction m with
  | nil => simp [GoMap.store, GoMap.lookup]
  | cons e rest ih =>
    obtain ⟨k0, v0⟩ := e
    by_cases h0 : k0 = k
    · subst h0
      by_cases h1 : k0 = k' <;> simp [GoMap.store, GoMap.lookup, h1]
    · by_cases h1 : k0 = k'
      · subst h1
        simp [GoMap.store, GoMap.lookup, h0, Ne.symm h0]
      · simp [GoMap.store, GoMap.lookup, h0, h1, ih]

theorem GoMap.lookup_isSome_iff {V : Type} (m : GoMap V) (k : String) :
    (GoMap.lookup m k).isSome = true ↔ k ∈ GoMap.keys m := by
  induction m with
  | nil => simp [GoMap.lookup, GoMap.keys]
  | cons e rest ih =>
    obtain ⟨k0, v0⟩ := e
    by_cases h0 : k0 = k
    · simp [GoMap.lookup, GoMap.keys, h0]
    · have ih2 : (GoMap.lookup rest k).isSome = true ↔ k ∈ List.map Prod.fst rest := ih
      simp [GoMap.lookup, GoMap.keys, h0, Ne.symm h0, ih2]

theorem GoMap.keys_store {V : Type} (m : GoMap V) (k : String) (v : V) :
    GoMap.keys (GoMap.store m k v) =
      if k ∈ GoMap.keys m then GoMap.keys m else GoMap.keys m ++ [k] := by
  induction m with
  | nil => simp [GoMap.store, GoMap.keys]
  | cons e rest ih =>
    obtain ⟨k0, v0⟩ := e
    have ih2 : List.map Prod.fst (GoMap.store rest k v) =
        if k ∈ List.map Prod.fst rest then List.map Prod.fst rest
        else List.map Prod.fst rest ++ [k] := ih
    by_cases h0 : k0 = k
    · simp [GoMap.store, GoMap.keys, h0]
    · by_cases h1 : k ∈ List.map Prod.fst rest
      · simp [GoMap.store, GoMap.keys, h0, Ne.symm h0, ih2, h1]
      · simp [GoMap.store, GoMap.keys, h0, Ne.symm h0, ih2, h1]

theorem GoMap.nodup_keys_store {V : Type} (m : GoMap V) (k : String) (v : V)
    (h : (GoMap.keys m).Nodup) : (GoMap.keys (GoMap.store m k v)).Nodup := by
  rw [GoMap.keys_store]
  split
  · exact h
  · rename_i hk
    exact List.Nodup.append h (List.nodup_singleton k) (by simpa using hk)

theorem GoMap.lookup_of_mem {V : Type} (m : GoMap V) (h : (GoMap.keys m).Nodup)
    (k : String) (v : V) (hm : (k, v) ∈ m) : GoMap.lookup m k = some v := by
  induction m with
  | nil => simp at hm
  | cons e rest ih =>
    obtain ⟨k0, v0⟩ := e
    have hnd : k0 ∉ List.map Prod.fst rest ∧ (List.map Prod.fst rest).Nodup := by
      simpa [GoMap.keys] using h
    rcases List.mem_cons.1 hm with heq | hrest
    · cases heq
      simp [GoMap.lookup]
    · have hne : k0 ≠ k := by
        intro hk
        subst hk
        exact hnd.1 (List.mem_map.2 ⟨(k0, v), hrest, rfl⟩)
      simp only [GoMap.lookup, hne, if_false]
      exact ih hnd.2 hrest

theorem GoMap.mem_of_lookup {V : Type} (m : GoMap V) (k : String) (v : V)
    (hl : GoMap.lookup m k = some v) : (k, v) ∈ m := by
  induction m with
  | nil => simp [GoMap.lookup] at hl
  | cons e rest ih =>
    obtain ⟨k0, v0⟩ := e
    by_cases h0 : k0 = k
    · subst h0
      simp [GoMap.lookup] at hl
      simp [hl]
    · simp only [GoMap.lookup, h0, if_false] at hl
      exact List.mem_cons_of_mem _ (ih hl)

/-! ## The counting loop -/

theorem tallyLoop_counts_lookup (rs : List BalanceResponse) :
    ∀ (i : Nat) (t : Tally) (k : String),
      GoMap.lookup (tallyLoop i rs t).balanceCounts k =
        if (balanceStrs rs).count k = 0 then GoMap.lookup t.balanceCounts k
        else some ((GoMap.lookup t.balanceCounts k).getD 0 + (balanceStrs rs).count k) := by
  induction rs with
  | nil => intro i t k; simp [tallyLoop, balanceStrs]
  | cons r rest ih =>
    intro i t k
    have ih2 := ih (i + 1) (tallyStep t i r) k
    simp only [tallyLoop, ih2]
    simp only [tallyStep, GoMap.lookup_store, balanceStrs, List.map_cons, List.count_cons]
    by_cases hk : r.Balance.String = k
    · subst hk
      by_cases hc : List.count r.Balance.String (List.map (fun r => r.Balance.String) rest) = 0
      · simp [hc]
      · simp [hc]; omega
    · have hk2 : (r.Balance.String == k) = false := by simpa using hk
      simp [hk, hk2]

theorem tallyLoop_counts_nodup (rs : List BalanceResponse) :
    ∀ (i : Nat) (t : Tally), (GoMap.keys t.balanceCounts).Nodup →
      (GoMap.keys (tallyLoop i rs t).balanceCounts).Nodup := by
  induction rs with
  | nil => intro i t h; simpa [tallyLoop] using h
  | cons r rest ih =>
    intro i t h
    simp only [tallyLoop]
    apply ih
    simp only [tallyStep]
    exact GoMap.nodup_keys_store _ _ _ h

theorem tallyLoop_order_keep (rs : List BalanceResponse) :
    ∀ (i : Nat) (t : Tally) (k : String) (o : Nat),
      GoMap.lookup t.balanceOrder k = some o →
      GoMap.lookup (tallyLoop i rs t).balanceOrder k = some o := by
  induction rs with
  | nil => intro i t k o h; simpa [tallyLoop] using h
  | cons r rest ih =>
    intro i t k o h
    simp only [tallyLoop]
    apply ih
    simp only [tallyStep]
    split
    · exact h
    · rename_i hs
      rw [GoMap.lookup_store]
      split
      · rename_i hk
        rw [hk, h] at hs
        simp at hs
      · exact h

theorem tallyLoop_order_lookup (rs : List BalanceResponse) :
    ∀ (i : Nat) (t : Tally) (k : String),
      GoMap.lookup t.balanceOrder k = none →
      GoMap.lookup (tallyLoop i rs t).balanceOrder k =
        if k ∈ balanceStrs rs then some (i + (balanceStrs rs).indexOf k) else none := by
  induction rs with
  | nil => intro i t k h; simp [tallyLoop, balanceStrs, h]
  | cons r rest ih =>
    intro i t k h
    simp only [tallyLoop]
    by_cases hk : r.Balance.String = k
    · subst hk
      have hstep : GoMap.lookup (tallyStep t i r).balanceOrder r.Balance.String = some i := by
        simp [tallyStep, h, GoMap.lookup_store]
      rw [tallyLoop_order_keep rest (i + 1) _ _ i hstep]
      simp [balanceStrs, List.indexOf_cons]
    · have hk2 : (r.Balance.String == k) = false := by simpa using hk
      have hstep : GoMap.lookup (tallyStep t i r).balanceOrder k = none := by
        simp only [tallyStep]
        split
        · exact h
        · rw [GoMap.lookup_store, if_neg hk]; exact h
      rw [ih (i + 1) _ k hstep]
      simp only [balanceStrs, List.map_cons, List.mem_cons, List.indexOf_cons, hk2, Ne.symm hk,
        false_or, cond_false]
      split
      · congr 1; omega
      · rfl

theorem tallyLoop_map_lookup (rs : List BalanceResponse) :
    ∀ (i : Nat) (t : Tally) (k : String),
      (∀ b, GoMap.lookup t.balanceMap k = some b → b.String = k) →
      ∀ b, GoMap.lookup (tallyLoop i rs t).balanceMap k = some b → b.String = k := by
  induction rs with
  | nil => intro i t k h; simpa [tallyLoop] using h
  | cons r rest ih =>
    intro i t k h
    simp only [tallyLoop]
    apply ih
    intro b
    simp only [tallyStep, GoMap.lookup_store]
    split
    · rename_i hk
      intro hb
      cases hb
      exact hk
    · exact h b

theorem tallyLoop_map_isSome (rs : List BalanceResponse) :
    ∀ (i : Nat) (t : Tally) (k : String),
      (k ∈ balanceStrs rs ∨ (GoMap.lookup t.balanceMap k).isSome = true) →
      (GoMap.lookup (tallyLoop i rs t).balanceMap k).isSome = true := by
  induction rs with
  | nil => intro i t k h; simpa [tallyLoop, balanceStrs] using h
  | cons r rest ih =>
    intro i t k h
    simp only [tallyLoop]
    apply ih
    simp only [tallyStep, GoMap.lookup_store]
    by_cases hk : r.Balance.String = k
    · simp [hk]
    · simp only [hk, if_false]
      rcases h with h | h
      · simp only [balanceStrs, List.map_cons, List.mem_cons] at h
        rcases h with h | h
        · exact absurd h.symm hk
        · exact Or.inl h
      · exact Or.inr h

/-! ## The maps after the loop -/

theorem tally_counts_lookup (rs : List BalanceResponse) (k : String) :
    GoMap.lookup (tally rs).balanceCounts k =
      if (balanceStrs rs).count k = 0 then none else some ((balanceStrs rs).count k) := by
  simp [tally, tallyLoop_counts_lookup, GoMap.lookup]

theorem tally_counts_nodup (rs : List BalanceResponse) :
    (GoMap.keys (tally rs).balanceCounts).Nodup :=
  tallyLoop_counts_nodup rs 0 _ (by simp [GoMap.keys])

theorem tally_counts_mem_keys (rs : List BalanceResponse) (k : String) :
    k ∈ GoMap.keys (tally rs).balanceCounts ↔ k ∈ balanceStrs rs := by
  rw [← GoMap.lookup_isSome_iff, tally_counts_lookup]
  by_cases h : k ∈ balanceStrs rs
  · have : List.count k (balanceStrs rs) ≠ 0 := by
      have := List.count_pos_iff.2 h
      omega
    simp [this, h]
  · simp [List.count_eq_zero_of_not_mem h, h]

theorem tally_order_lookup (rs : List BalanceResponse) (k : String) :
    GoMap.lookup (tally rs).balanceOrder k =
      if k ∈ balanceStrs rs then some ((balanceStrs rs).indexOf k) else none := by
  have h := tallyLoop_order_lookup rs 0 { balanceOrder := [], balanceCounts := [], balanceMap := [] }
    k (by simp [GoMap.lookup])
  simpa [tally] using h

theorem tally_map_lookup (rs : List BalanceResponse) (k : String) (hk : k ∈ balanceStrs rs) :
    ∃ b, GoMap.lookup (tally rs).balanceMap k = some b ∧ b.String = k := by
  have h1 := tallyLoop_map_isSome rs 0 { balanceOrder := [], balanceCounts := [], balanceMap := [] }
    k (Or.inl hk)
  obtain ⟨b, hb⟩ := Option.isSome_iff_exists.1 h1
  refine ⟨b, hb, ?_⟩
  exact tallyLoop_map_lookup rs 0 _ k (by simp [GoMap.lookup]) b hb

/-! ## The slice handed to `sort.Slice` -/

theorem mem_countedBalances (env : GoEnv) (henv : env.Lawful) (rs : List BalanceResponse)
    (e : balanceCount) :
    e ∈ countedBalances env rs ↔
      e.balance ∈ balanceStrs rs ∧ e.count = (balanceStrs rs).count e.balance ∧
        e.order = (balanceStrs rs).indexOf e.balance := by
  simp only [countedBalances, List.mem_map]
  constructor
  · rintro ⟨⟨k, c⟩, hmem, rfl⟩
    have hmem2 : (k, c) ∈ (tally rs).balanceCounts := (henv.1 _).mem_iff.1 hmem
    have hl := GoMap.lookup_of_mem _ (tally_counts_nodup rs) k c hmem2
    have hk : k ∈ balanceStrs rs :=
      (tally_counts_mem_keys rs k).1 (List.mem_map.2 ⟨(k, c), hmem2, rfl⟩)
    rw [tally_counts_lookup] at hl
    have hc : List.count k (balanceStrs rs) ≠ 0 := by
      have := List.count_pos_iff.2 hk
      omega
    simp only [hc, if_false, Option.some.injEq] at hl
    simp [tally_order_lookup, hk, hl]
  · rintro ⟨hk, hc, ho⟩
    have hc0 : List.count e.balance (balanceStrs rs) ≠ 0 := by
      have := List.count_pos_iff.2 hk
      omega
    have hl : GoMap.lookup (tally rs).balanceCounts e.balance = some e.count := by
      rw [tally_counts_lookup]; simp [hc0, hc]
    refine ⟨(e.balance, e.count), (henv.1 _).mem_iff.2 (GoMap.mem_of_lookup _ _ _ hl), ?_⟩
    cases e
    simp_all [tally_order_lookup]

theorem balanceLess_strictWeak : StrictWeak balanceLess := by
  refine ⟨?_, ?_, ?_⟩
  · intro a; simp [balanceLess]
  · intro a b c h1 h2
    simp only [balanceLess] at *
    split at h1 <;> split at h2 <;> split <;> simp at * <;> omega
  · intro a b c h1 h2
    simp only [balanceLess] at *
    split at h1 <;> split at h2 <;> split <;> simp at * <;> omega

theorem balanceLess_false_iff (a b : balanceCount) :
    balanceLess a b = false ↔ a.count ≤ b.count ∧ (a.count = b.count → b.order ≤ a.order) := by
  simp only [balanceLess]
  split <;> simp <;> omega

/-- The head of the sorted slice exists and no counted value beats it. -/
theorem sortedBalances_head (env : GoEnv) (henv : env.Lawful) (rs : List BalanceResponse)
    (hne : rs ≠ []) :
    ∃ first rest, sortedBalances env rs = first :: rest ∧
      first.balance ∈ balanceStrs rs ∧
      first.count = (balanceStrs rs).count first.balance ∧
      first.order = (balanceStrs rs).indexOf first.balance ∧
      ∀ k ∈ balanceStrs rs,
        (balanceStrs rs).count k ≤ first.count ∧
          ((balanceStrs rs).count k = first.count →
            first.order ≤ (balanceStrs rs).indexOf k) := by
  have hperm : (sortedBalances env rs).Perm (countedBalances env rs) := henv.2.1 _ _
  have hsorted := henv.2.2 balanceLess (countedBalances env rs) balanceLess_strictWeak
  obtain ⟨r, rest0, rfl⟩ := List.exists_cons_of_ne_nil hne
  have hin : (⟨r.Balance.String, (balanceStrs (r :: rest0)).count r.Balance.String,
      (balanceStrs (r :: rest0)).indexOf r.Balance.String⟩ : balanceCount) ∈
      sortedBalances env (r :: rest0) := by
    rw [hperm.mem_iff, mem_countedBalances env henv]
    simp [balanceStrs]
  cases hs : sortedBalances env (r :: rest0) with
  | nil => rw [hs] at hin; simp at hin
  | cons first rest =>
    have hfirst : first ∈ countedBalances env (r :: rest0) := by
      rw [← hperm.mem_iff, hs]; simp
    obtain ⟨hf1, hf2, hf3⟩ := (mem_countedBalances env henv _ first).1 hfirst
    refine ⟨first, rest, rfl, hf1, hf2, hf3, ?_⟩
    intro k hk
    have hmem : (⟨k, (balanceStrs (r :: rest0)).count k,
        (balanceStrs (r :: rest0)).indexOf k⟩ : balanceCount) ∈ first :: rest := by
      rw [← hs, hperm.mem_iff, mem_countedBalances env henv]
      exact ⟨hk, rfl, rfl⟩
    have hless : balanceLess ⟨k, (balanceStrs (r :: rest0)).count k,
        (balanceStrs (r :: rest0)).indexOf k⟩ first = false := by
      rcases List.mem_cons.1 hmem with heq | hrest
      · rw [heq]; exact balanceLess_strictWeak.1 first
      · have hs2 := hsorted
        unfold sortedBalances at hs
        rw [hs] at hs2
        exact (List.pairwise_cons.1 hs2).1 _ hrest
    simpa using (balanceLess_false_iff _ _).1 hless

/-! ## Environments that meet the contract -/

theorem insertionSort_contract {α : Type} (less : α → α → Bool) (l : List α)
    (h : StrictWeak less) :
    (l.insertionSort fun a b => less b a = false).Pairwise fun a b => less b a = false := by
  haveI : IsTotal α (fun a b => less b a = false) := by
    constructor
    intro a b
    by_cases hba : less b a = false
    · exact Or.inl hba
    · right
      have hba2 : less b a = true := by simpa using hba
      cases hab : less a b with
      | false => rfl
      | true =>
        have := h.2.1 a b a hab hba2
        rw [h.1 a] at this
        exact absurd this (by simp)
  haveI : IsTrans α (fun a b => less b a = false) := by
    constructor
    intro a b c hab hbc
    exact h.2.2 c b a hbc hab
  exact List.sorted_insertionSort (fun a b => less b a = false) l

theorem stdEnv_lawful : stdEnv.Lawful :=
  ⟨fun _ => List.Perm.refl _, fun _ l => List.perm_insertionSort _ l,
    fun less l h => insertionSort_contract less l h⟩

theorem revEnv_lawful : revEnv.Lawful :=
  ⟨fun m => List.reverse_perm m, fun _ l => List.perm_insertionSort _ l,
    fun less l h => insertionSort_contract less l h⟩

/-! ## From map keys back to values -/

theorem balanceStrs_eq (rs : List BalanceResponse) :
    balanceStrs rs = (balances rs).map BigIntPtr.String := by
  simp [balanceStrs, balances]

theorem indexOf_map_injective {α β : Type} [DecidableEq α] [DecidableEq β] (f : α → β)
    (hf : Function.Injective f) (a : α) (l : List α) :
    (l.map f).indexOf (f a) = l.indexOf a := by
  induction l with
  | nil => simp
  | cons b l ih =>
    simp only [List.map_cons, List.indexOf_cons, ih]
    by_cases hb : b = a
    · subst hb; simp
    · have hfb : f b ≠ f a := fun h => hb (hf h)
      rw [beq_eq_false_iff_ne.2 hfb, beq_eq_false_iff_ne.2 hb]

theorem count_balanceStrs (rs : List BalanceResponse) (b : BigIntPtr) :
    (balanceStrs rs).count b.String = (balances rs).count b := by
  rw [balanceStrs_eq]
  exact List.count_map_of_injective _ _ bigIntString_injective b

theorem indexOf_balanceStrs (rs : List BalanceResponse) (b : BigIntPtr) :
    (balanceStrs rs).indexOf b.String = (balances rs).indexOf b := by
  rw [balanceStrs_eq]
  exact indexOf_map_injective _ bigIntString_injective b _

theorem mem_balanceStrs (rs : List BalanceResponse) (b : BigIntPtr) :
    b.String ∈ balanceStrs rs ↔ b ∈ balances rs := by
  rw [balanceStrs_eq]
  exact List.mem_map_of_injective bigIntString_injective

theorem nodup_length_gt_one {α : Type} (l : List α) (h : l.Nodup) :
    1 < l.length ↔ ∃ a ∈ l, ∃ b ∈ l, a ≠ b := by
  constructor
  · intro hl
    match l, h, hl with
    | a :: b :: rest, h, _ =>
      refine ⟨a, by simp, b, by simp, ?_⟩
      intro hab
      subst hab
      simp at h
  · rintro ⟨a, ha, b, hb, hab⟩
    match l, ha, hb with
    | [], ha, _ => simp at ha
    | [x], ha, hb =>
      simp at ha hb
      exact absurd (ha.trans hb.symm) hab
    | _ :: _ :: _, _, _ => simp

theorem tally_len_gt_one (rs : List BalanceResponse) :
    1 < GoMap.len (tally rs).balanceCounts ↔
      ∃ a ∈ balances rs, ∃ b ∈ balances rs, a ≠ b := by
  have hlen : GoMap.len (tally rs).balanceCounts =
      (GoMap.keys (tally rs).balanceCounts).length := by
    simp [GoMap.len, GoMap.keys]
  rw [hlen, nodup_length_gt_one _ (tally_counts_nodup rs)]
  constructor
  · rintro ⟨k1, h1, k2, h2, hne⟩
    rw [tally_counts_mem_keys, balanceStrs_eq] at h1 h2
    obtain ⟨a, ha, rfl⟩ := List.mem_map.1 h1
    obtain ⟨b, hb, rfl⟩ := List.mem_map.1 h2
    exact ⟨a, ha, b, hb, fun h => hne (by rw [h])⟩
  · rintro ⟨a, ha, b, hb, hne⟩
    refine ⟨a.String, ?_, b.String, ?_, fun h => hne (bigIntString_injective h)⟩
    · rw [tally_counts_mem_keys, mem_balanceStrs]; exact ha
    · rw [tally_counts_mem_keys, mem_balanceStrs]; exact hb

/-! ## The consensus function -/

theorem getConsensusBalance_single (env : GoEnv) (r : BalanceResponse) (address : String) :
    getConsensusBalance env [r] address = some (r.Balance, false) := rfl

theorem getConsensusBalance_sorted (env : GoEnv) (rs : List BalanceResponse) (address : String)
    (hlen : rs.length ≠ 1) :
    getConsensusBalance env rs address =
      match sortedBalances env rs with
      | [] => none
      | first :: _ =>
        some ((GoMap.lookup (tally rs).balanceMap first.balance).getD .nil,
          decide (GoMap.len (tally rs).balanceCounts > 1)) := by
  match rs, hlen with
  | [], _ => rfl
  | [_], h => simp at h
  | _ :: _ :: _, _ => rfl

/-- What `getConsensusBalance` returns on a non-empty reply list: the value
behind the head of the sorted slice, which is found in `balanceMap`, has the
largest count, and among the values of that count the earliest first
position; the flag says whether two replies differ. -/
theorem getConsensusBalance_spec (env : GoEnv) (henv : env.Lawful) (rs : List BalanceResponse)
    (address : String) (hne : rs ≠ []) :
    ∃ v, getConsensusBalance env rs address =
        some (v, decide (∃ a ∈ balances rs, ∃ b ∈ balances rs, a ≠ b)) ∧
      v ∈ balances rs ∧
      (∀ w, (balances rs).count w ≤ (balances rs).count v) ∧
      (∀ w ∈ balances rs, (balances rs).count w = (balances rs).count v →
        (balances rs).indexOf v ≤ (balances rs).indexOf w) := by
  by_cases hlen : rs.length = 1
  · match rs, hlen with
    | [r], _ =>
      refine ⟨r.Balance, ?_, by simp [balances], ?_, ?_⟩
      · simp [getConsensusBalance_single, balances]
      · intro w
        by_cases hw : w = r.Balance <;> simp [balances, List.count_cons, hw]
      · intro w hw _
        simp [balances] at hw
        simp [balances, hw]
  · obtain ⟨first, rest, hs, hmem, hcount, horder, hbest⟩ := sortedBalances_head env henv rs hne
    obtain ⟨v, hv, hvs⟩ := tally_map_lookup rs first.balance hmem
    have hvmem : v ∈ balances rs := (mem_balanceStrs rs v).1 (by rw [hvs]; exact hmem)
    refine ⟨v, ?_, hvmem, ?_, ?_⟩
    · rw [getConsensusBalance_sorted env rs address hlen, hs]
      simp only [hv, Option.getD_some]
      congr 2
      exact decide_eq_decide.2 (tally_len_gt_one rs)
    · intro w
      by_cases hw : w ∈ balances rs
      · have := (hbest w.String ((mem_balanceStrs rs w).2 hw)).1
        rw [hcount, ← hvs, count_balanceStrs, count_balanceStrs] at this
        exact this
      · rw [List.count_eq_zero_of_not_mem hw]; exact Nat.zero_le _
    · intro w hw hc
      have := (hbest w.String ((mem_balanceStrs rs w).2 hw)).2
      rw [hcount, horder, ← hvs, count_balanceStrs, count_balanceStrs, indexOf_balanceStrs,
        indexOf_balanceStrs] at this
      exact this hc

/-! ## The fan-out -/

theorem foldl_available (l : List Client) :
    ∀ acc : List Client,
      l.foldl (fun available client =>
        if client.IsAvailable then available ++ [client] else available) acc =
        acc ++ l.filter fun c => c.IsAvailable := by
  induction l with
  | nil => intro acc; simp
  | cons c rest ih =>
    intro acc
    cases hc : c.IsAvailable <;> simp [List.foldl_cons, ih, hc, List.filter_cons]

theorem GetAvailableClients_eq_filter (p : PoolStruct) :
    GetAvailableClients p = p.clients.filter fun c => c.IsAvailable := by
  simp [GetAvailableClients, foldl_available]

theorem foldl_collect (l : List BalanceResponse) :
    ∀ acc : List BalanceResponse,
      l.foldl (fun responses resp =>
        if resp.Error = none then responses ++ [resp] else responses) acc =
        acc ++ l.filter fun r => decide (r.Error = none) := by
  induction l with
  | nil => intro acc; simp
  | cons r rest ih =>
    intro acc
    by_cases hr : r.Error = none <;> simp [List.foldl_cons, ih, hr, List.filter_cons]

theorem collectResponses_eq_filter (l : List BalanceResponse) :
    collectResponses l = l.filter fun r => decide (r.Error = none) := by
  simp [collectResponses, foldl_collect]

theorem filter_sent (QueryBalance : QueryFn) (address blockParam : String) (l : List Client) :
    (l.map (sendResponse QueryBalance address blockParam)).filter
        (fun r => decide (r.Error = none)) =
      l.filterMap fun c =>
        match QueryBalance c address blockParam with
        | .ok balance => some { ClientName := c.Name, Balance := .int balance, Error := none }
        | .error _ => none := by
  induction l with
  | nil => simp
  | cons c rest ih =>
    simp only [List.map_cons, List.filter_cons, List.filterMap_cons, ih]
    cases h : QueryBalance c address blockParam <;> simp [sendResponse, h]

theorem collect_dispatched (QueryBalance : QueryFn) (p : PoolStruct) (address blockParam : String) :
    collectResponses (dispatchedResponses QueryBalance p address blockParam) =
      successfulReplies QueryBalance p address blockParam := by
  rw [collectResponses_eq_filter, dispatchedResponses, filter_sent, GetAvailableClients_eq_filter,
    successfulReplies]

theorem collect_received_perm (sched : Scheduler) (hs : sched.Fair) (QueryBalance : QueryFn)
    (p : PoolStruct) (address blockParam : String) :
    (collectResponses (sched.recvOrder (dispatchedResponses QueryBalance p address blockParam))).Perm
      (successfulReplies QueryBalance p address blockParam) := by
  rw [← collect_dispatched, collectResponses_eq_filter, collectResponses_eq_filter]
  exact (hs _).filter _

theorem QueryBalanceFromAllClients_eq (sched : Scheduler) (QueryBalance : QueryFn)
    (p : PoolStruct) (address blockParam : String) (h : GetAvailableClients p ≠ []) :
    QueryBalanceFromAllClients sched QueryBalance p address blockParam =
      if collectResponses
          (sched.recvOrder (dispatchedResponses QueryBalance p address blockParam)) = [] then
        .error "failed to retrieve balance from any client"
      else
        .ok (collectResponses
          (sched.recvOrder (dispatchedResponses QueryBalance p address blockParam))) := by
  simp only [QueryBalanceFromAllClients, dispatchedResponses, List.length_eq_zero, h, if_false]

theorem successfulReplies_eq_nil_iff (QueryBalance : QueryFn) (p : PoolStruct)
    (address blockParam : String) :
    successfulReplies QueryBalance p address blockParam = [] ↔
      ∀ c ∈ p.clients, c.IsAvailable = true → ∃ e, QueryBalance c address blockParam = .error e := by
  simp only [successfulReplies, List.filterMap_eq_nil_iff, List.mem_filter]
  constructor
  · intro h c hc hav
    have := h c ⟨hc, hav⟩
    cases hq : QueryBalance c address blockParam with
    | ok b => rw [hq] at this; simp at this
    | error e => exact ⟨e, rfl⟩
  · intro h c hc
    obtain ⟨e, he⟩ := h c hc.1 hc.2
    rw [he]

/-! ## Consensus: plurality, tie-break, flag, totality -/

/-- C1: for every non-empty list of replies, `getConsensusBalance` returns a
value of the list, and no value occurs in the list more often than the
returned one (values compared as integers). -/
theorem getConsensusBalance_plurality (env : GoEnv) (henv : env.Lawful)
    (rs : List BalanceResponse) (address : String) (hne : rs ≠ []) :
    ∃ v flag, getConsensusBalance env rs address = some (v, flag) ∧
      v ∈ balances rs ∧ ∀ w, (balances rs).count w ≤ (balances rs).count v := by
  obtain ⟨v, hv, hmem, hmax, _⟩ := getConsensusBalance_spec env henv rs address hne
  exact ⟨v, _, hv, hmem, hmax⟩

/-- Five replies with four distinct values: 100 wins with two votes of five. -/
theorem getConsensusBalance_plurality_witness :
    stdEnv.Lawful ∧ repliesOf [100, 200, 300, 100, 400] ≠ [] ∧
      (∃ v flag, getConsensusBalance stdEnv (repliesOf [100, 200, 300, 100, 400]) "0x123" =
          some (v, flag) ∧
        v ∈ balances (repliesOf [100, 200, 300, 100, 400]) ∧
        ∀ w, (balances (repliesOf [100, 200, 300, 100, 400])).count w ≤
          (balances (repliesOf [100, 200, 300, 100, 400])).count v) ∧
      getConsensusBalance stdEnv (repliesOf [100, 200, 300, 100, 400]) "0x123" =
        some (.int 100, true) ∧
      (balances (repliesOf [100, 200, 300, 100, 400])).count (.int 100) = 2 :=
  ⟨stdEnv_lawful, by decide,
    getConsensusBalance_plurality stdEnv stdEnv_lawful (repliesOf [100, 200, 300, 100, 400])
      "0x123" (by decide),
    by decide, by decide⟩

/-- C2: for every non-empty list of replies, `getConsensusBalance` returns a
value of the largest count, and its first occurrence is no later than the
first occurrence of any other value of the largest count. -/
theorem getConsensusBalance_tie_break (env : GoEnv) (henv : env.Lawful)
    (rs : List BalanceResponse) (address : String) (hne : rs ≠ []) :
    ∃ v flag, getConsensusBalance env rs address = some (v, flag) ∧
      v ∈ balances rs ∧
      (∀ w, (balances rs).count w ≤ (balances rs).count v) ∧
      ∀ w ∈ balances rs, (∀ u, (balances rs).count u ≤ (balances rs).count w) →
        (balances rs).indexOf v ≤ (balances rs).indexOf w := by
  obtain ⟨v, hv, hmem, hmax, hfirst⟩ := getConsensusBalance_spec env henv rs address hne
  refine ⟨v, _, hv, hmem, hmax, ?_⟩
  intro w hw hwmax
  exact hfirst w hw (Nat.le_antisymm (hmax w) (hwmax v))

/-- The replies `[100, 200]` tie; the first one, 100, is returned, also when
`range` visits the map in reverse. -/
theorem getConsensusBalance_tie_break_witness :
    revEnv.Lawful ∧ repliesOf [100, 200] ≠ [] ∧
      (∃ v flag, getConsensusBalance revEnv (repliesOf [100, 200]) "0x123" = some (v, flag) ∧
        v ∈ balances (repliesOf [100, 200]) ∧
        (∀ w, (balances (repliesOf [100, 200])).count w ≤
          (balances (repliesOf [100, 200])).count v) ∧
        ∀ w ∈ balances (repliesOf [100, 200]),
          (∀ u, (balances (repliesOf [100, 200])).count u ≤
            (balances (repliesOf [100, 200])).count w) →
          (balances (repliesOf [100, 200])).indexOf v ≤
            (balances (repliesOf [100, 200])).indexOf w) ∧
      getConsensusBalance revEnv (repliesOf [100, 200]) "0x123" = some (.int 100, true) :=
  ⟨revEnv_lawful, by decide,
    getConsensusBalance_tie_break revEnv revEnv_lawful (repliesOf [100, 200]) "0x123"
      (by decide),
    by decide⟩

/-- C3: for every non-empty list of replies, the flag `getConsensusBalance`
returns is true exactly when two replies of the list carry different
values. -/
theorem getConsensusBalance_flag (env : GoEnv) (henv : env.Lawful)
    (rs : List BalanceResponse) (address : String) (hne : rs ≠ []) :
    ∃ v flag, getConsensusBalance env rs address = some (v, flag) ∧
      (flag = true ↔ ∃ a ∈ balances rs, ∃ b ∈ balances rs, a ≠ b) := by
  obtain ⟨v, hv, _⟩ := getConsensusBalance_spec env henv rs address hne
  exact ⟨v, _, hv, by simp⟩

/-- The replies `[100, 100, 200]`: the flag is set. -/
theorem getConsensusBalance_flag_witness :
    stdEnv.Lawful ∧ repliesOf [100, 100, 200] ≠ [] ∧
      (∃ v flag, getConsensusBalance stdEnv (repliesOf [100, 100, 200]) "0x123" =
          some (v, flag) ∧
        (flag = true ↔ ∃ a ∈ balances (repliesOf [100, 100, 200]),
          ∃ b ∈ balances (repliesOf [100, 100, 200]), a ≠ b)) ∧
      getConsensusBalance stdEnv (repliesOf [100, 100, 200]) "0x123" = some (.int 100, true) :=
  ⟨stdEnv_lawful, by decide,
    getConsensusBalance_flag stdEnv stdEnv_lawful (repliesOf [100, 100, 200]) "0x123"
      (by decide),
    by decide⟩

/-- C4: for every non-empty list of replies that all carry the same value,
`getConsensusBalance` returns that value and the flag false. -/
theorem getConsensusBalance_unanimous (env : GoEnv) (henv : env.Lawful)
    (rs : List BalanceResponse) (address : String) (hne : rs ≠ []) (v : BigIntPtr)
    (hall : ∀ r ∈ rs, r.Balance = v) :
    getConsensusBalance env rs address = some (v, false) := by
  obtain ⟨u, hu, hmem, _⟩ := getConsensusBalance_spec env henv rs address hne
  have hbal : ∀ a ∈ balances rs, a = v := by
    intro a ha
    obtain ⟨r, hr, rfl⟩ := List.mem_map.1 ha
    exact hall r hr
  have huv : u = v := hbal u hmem
  have hflag : decide (∃ a ∈ balances rs, ∃ b ∈ balances rs, a ≠ b) = false := by
    rw [decide_eq_false_iff_not]
    rintro ⟨a, ha, b, hb, hab⟩
    exact hab ((hbal a ha).trans (hbal b hb).symm)
  rw [hu, huv, hflag]

/-- Three replies of 100, and a single reply of 100. -/
theorem getConsensusBalance_unanimous_witness :
    stdEnv.Lawful ∧ repliesOf [100, 100, 100] ≠ [] ∧
      (∀ r ∈ repliesOf [100, 100, 100], r.Balance = .int 100) ∧
      getConsensusBalance stdEnv (repliesOf [100, 100, 100]) "0x123" = some (.int 100, false) :=
  ⟨stdEnv_lawful, by decide, by decide,
    getConsensusBalance_unanimous stdEnv stdEnv_lawful (repliesOf [100, 100, 100]) "0x123"
      (by decide) (.int 100) (by decide)⟩

/-- C5: for every non-empty list of replies, `getConsensusBalance` returns a
value: the slice it sorts is non-empty, so `sortedBalances[0]` exists, and
the key read there is present in `balanceMap`. -/
theorem getConsensusBalance_total (env : GoEnv) (henv : env.Lawful)
    (rs : List BalanceResponse) (address : String) (hne : rs ≠ []) :
    countedBalances env rs ≠ [] ∧
      ∃ first rest v flag, sortedBalances env rs = first :: rest ∧
        GoMap.lookup (tally rs).balanceMap first.balance = some v ∧
        getConsensusBalance env rs address = some (v, flag) := by
  obtain ⟨first, rest, hs, hmem, _⟩ := sortedBalances_head env henv rs hne
  obtain ⟨v, hv, hvs⟩ := tally_map_lookup rs first.balance hmem
  constructor
  · intro hnil
    have hperm : (sortedBalances env rs).Perm (countedBalances env rs) := henv.2.1 _ _
    rw [hnil, hs] at hperm
    exact List.cons_ne_nil _ _ hperm.eq_nil
  · by_cases hlen : rs.length = 1
    · match rs, hlen with
      | [r], _ =>
        have hk : first.balance = r.Balance.String := by
          simpa [balanceStrs] using hmem
        have hvr : v = r.Balance := bigIntString_injective (hvs.trans hk)
        exact ⟨first, rest, v, false, hs, hv, by rw [getConsensusBalance_single, hvr]⟩
    · refine ⟨first, rest, v, decide (GoMap.len (tally rs).balanceCounts > 1), hs, hv, ?_⟩
      rw [getConsensusBalance_sorted env rs address hlen, hs]
      simp only [hv, Option.getD_some]

/-- The replies `[100, 200]` under reverse map iteration. -/
theorem getConsensusBalance_total_witness :
    revEnv.Lawful ∧ repliesOf [100, 200] ≠ [] ∧
      (countedBalances revEnv (repliesOf [100, 200]) ≠ [] ∧
        ∃ first rest v flag, sortedBalances revEnv (repliesOf [100, 200]) = first :: rest ∧
          GoMap.lookup (tally (repliesOf [100, 200])).balanceMap first.balance = some v ∧
          getConsensusBalance revEnv (repliesOf [100, 200]) "0x123" = some (v, flag)) :=
  ⟨revEnv_lawful, by decide,
    getConsensusBalance_total revEnv revEnv_lawful (repliesOf [100, 200]) "0x123" (by decide)⟩

/-! ## Fan-out: outcome, empty snapshot, order -/

/-- C6: for every pool with an available endpoint and every outcome of the
per-endpoint calls, `QueryBalanceFromAllClients` fails when every call of an
available endpoint failed; otherwise it returns, without error, exactly the
successful replies: one per available endpoint whose call succeeded, with its
name and balance, and none for a failed or unavailable endpoint. -/
theorem QueryBalanceFromAllClients_outcome (sched : Scheduler) (hs : sched.Fair)
    (QueryBalance : QueryFn) (p : PoolStruct) (address blockParam : String)
    (havail : ∃ c ∈ p.clients, c.IsAvailable = true) :
    ((∀ c ∈ p.clients, c.IsAvailable = true →
        ∃ e, QueryBalance c address blockParam = .error e) →
      QueryBalanceFromAllClients sched QueryBalance p address blockParam =
        .error "failed to retrieve balance from any client") ∧
    ((∃ c ∈ p.clients, c.IsAvailable = true ∧
        ∃ balance, QueryBalance c address blockParam = .ok balance) →
      ∃ rs, QueryBalanceFromAllClients sched QueryBalance p address blockParam = .ok rs ∧
        rs.Perm (successfulReplies QueryBalance p address blockParam)) := by
  have hne : GetAvailableClients p ≠ [] := by
    obtain ⟨c, hc, hav⟩ := havail
    rw [GetAvailableClients_eq_filter]
    exact List.ne_nil_of_mem (List.mem_filter.2 ⟨hc, hav⟩)
  have hperm := collect_received_perm sched hs QueryBalance p address blockParam
  rw [QueryBalanceFromAllClients_eq sched QueryBalance p address blockParam hne]
  constructor
  · intro hfail
    have hnil := (successfulReplies_eq_nil_iff QueryBalance p address blockParam).2 hfail
    rw [hnil] at hperm
    rw [if_pos hperm.eq_nil]
  · rintro ⟨c, hc, hav, balance, hq⟩
    have hnn : collectResponses
        (sched.recvOrder (dispatchedResponses QueryBalance p address blockParam)) ≠ [] := by
      intro hnil
      rw [hnil] at hperm
      have := (successfulReplies_eq_nil_iff QueryBalance p address blockParam).1 hperm.symm.eq_nil
      obtain ⟨e, he⟩ := this c hc hav
      rw [hq] at he
      cases he
    rw [if_neg hnn]
    exact ⟨_, rfl, hperm⟩

/-- Two available endpoints answering 100 and 200, received in reverse. -/
theorem QueryBalanceFromAllClients_outcome_witness :
    reverseScheduler.Fair ∧ (∃ c ∈ twoClients.clients, c.IsAvailable = true) ∧
      (((∀ c ∈ twoClients.clients, c.IsAvailable = true →
          ∃ e, splitAnswers c "0x123" "latest" = .error e) →
        QueryBalanceFromAllClients reverseScheduler splitAnswers twoClients "0x123" "latest" =
          .error "failed to retrieve balance from any client") ∧
      ((∃ c ∈ twoClients.clients, c.IsAvailable = true ∧
          ∃ balance, splitAnswers c "0x123" "latest" = .ok balance) →
        ∃ rs, QueryBalanceFromAllClients reverseScheduler splitAnswers twoClients "0x123"
            "latest" = .ok rs ∧
          rs.Perm (successfulReplies splitAnswers twoClients "0x123" "latest"))) :=
  ⟨fun l => List.reverse_perm l, by decide,
    QueryBalanceFromAllClients_outcome reverseScheduler (fun l => List.reverse_perm l)
      splitAnswers twoClients "0x123" "latest" (by decide)⟩

/-- C7: for every pool in which no endpoint is available,
`QueryBalanceFromAllClients` fails with the no-clients-available error and
returns no replies, whatever the scheduler does and whatever the endpoints
would have answered. -/
theorem QueryBalanceFromAllClients_none_available (p : PoolStruct)
    (hnone : ∀ c ∈ p.clients, c.IsAvailable = false) (sched : Scheduler)
    (QueryBalance : QueryFn) (address blockParam : String) :
    QueryBalanceFromAllClients sched QueryBalance p address blockParam =
      .error "no Ethereum clients available" := by
  have hnil : GetAvailableClients p = [] := by
    rw [GetAvailableClients_eq_filter, List.filter_eq_nil_iff]
    intro c hc
    simp [hnone c hc]
  simp [QueryBalanceFromAllClients, hnil]

/-- A pool whose only endpoint is flagged unavailable. -/
theorem QueryBalanceFromAllClients_none_available_witness :
    (∀ c ∈ (⟨[⟨"http://a", "a", 10, false⟩]⟩ : PoolStruct).clients, c.IsAvailable = false) ∧
      QueryBalanceFromAllClients reverseScheduler splitAnswers ⟨[⟨"http://a", "a", 10, false⟩]⟩
          "0x123" "latest" = .error "no Ethereum clients available" :=
  ⟨by decide,
    QueryBalanceFromAllClients_none_available ⟨[⟨"http://a", "a", 10, false⟩]⟩ (by decide)
      reverseScheduler splitAnswers "0x123" "latest"⟩

/-- C8, as stated, fails: with two available endpoints that answer 100 and
200 and complete in reverse order, the replies come back in arrival order,
not in snapshot order, and the consensus value changes with the arrival
order. -/
theorem QueryBalanceFromAllClients_snapshot_order_counterexample :
    reverseScheduler.Fair ∧
      QueryBalanceFromAllClients reverseScheduler splitAnswers twoClients "0x123" "latest" =
        .ok [⟨"b", .int 200, none⟩, ⟨"a", .int 100, none⟩] ∧
      successfulReplies splitAnswers twoClients "0x123" "latest" =
        [⟨"a", .int 100, none⟩, ⟨"b", .int 200, none⟩] ∧
      GetBalance stdEnv ⟨twoClients.toPool inOrderScheduler splitAnswers⟩ "0x123" "latest" =
        some (.ok (.int 100)) ∧
      GetBalance stdEnv ⟨twoClients.toPool reverseScheduler splitAnswers⟩ "0x123" "latest" =
        some (.ok (.int 200)) :=
  ⟨fun l => List.reverse_perm l, by rfl, by rfl, by rfl, by rfl⟩

/-- C8, amended: the replies `QueryBalanceFromAllClients` returns are the
received messages without error, in the order received; they are in snapshot
order when the messages are received in the order sent. -/
theorem QueryBalanceFromAllClients_arrival_order (sched : Scheduler)
    (QueryBalance : QueryFn) (p : PoolStruct) (address blockParam : String)
    (rs : List BalanceResponse)
    (hok : QueryBalanceFromAllClients sched QueryBalance p address blockParam = .ok rs) :
    rs = (sched.recvOrder (dispatchedResponses QueryBalance p address blockParam)).filter
        (fun r => decide (r.Error = none)) ∧
      (sched.recvOrder (dispatchedResponses QueryBalance p address blockParam) =
          dispatchedResponses QueryBalance p address blockParam →
        rs = successfulReplies QueryBalance p address blockParam) := by
  have hne : GetAvailableClients p ≠ [] := by
    intro hnil
    simp [QueryBalanceFromAllClients, hnil] at hok
  rw [QueryBalanceFromAllClients_eq sched QueryBalance p address blockParam hne] at hok
  split at hok
  · cases hok
  · have hrs : collectResponses
        (sched.recvOrder (dispatchedResponses QueryBalance p address blockParam)) = rs := by
      injection hok
    constructor
    · rw [← hrs, collectResponses_eq_filter]
    · intro hsame
      rw [← hrs, hsame, collect_dispatched]

/-- Two available endpoints answering 100 and 200, received in reverse. -/
theorem QueryBalanceFromAllClients_arrival_order_witness :
    QueryBalanceFromAllClients reverseScheduler splitAnswers twoClients "0x123" "latest" =
        .ok [⟨"b", .int 200, none⟩, ⟨"a", .int 100, none⟩] ∧
      ([⟨"b", .int 200, none⟩, ⟨"a", .int 100, none⟩] =
          (reverseScheduler.recvOrder
            (dispatchedResponses splitAnswers twoClients "0x123" "latest")).filter
            (fun r => decide (r.Error = none)) ∧
        (reverseScheduler.recvOrder (dispatchedResponses splitAnswers twoClients "0x123" "latest") =
            dispatchedResponses splitAnswers twoClients "0x123" "latest" →
          [⟨"b", .int 200, none⟩, ⟨"a", .int 100, none⟩] =
            successfulReplies splitAnswers twoClients "0x123" "latest")) :=
  ⟨by rfl,
    QueryBalanceFromAllClients_arrival_order reverseScheduler splitAnswers twoClients "0x123"
      "latest" [⟨"b", .int 200, none⟩, ⟨"a", .int 100, none⟩] (by rfl)⟩

/-! ## The composed entry point and the registry -/

/-- C9: when `QueryBalanceFromAllClients` returns an error, `GetBalance`
returns an error and no value; when it returns replies, `GetBalance` returns
no error and the value `getConsensusBalance` picks from those replies. -/
theorem GetBalance_composes (env : GoEnv) (henv : env.Lawful) (sched : Scheduler)
    (QueryBalance : QueryFn) (p : PoolStruct) (address blockParam : String) :
    (∀ err, QueryBalanceFromAllClients sched QueryBalance p address blockParam = .error err →
      GetBalance env ⟨p.toPool sched QueryBalance⟩ address blockParam =
        some (.error ("failed to query balances: " ++ err))) ∧
    (∀ rs, QueryBalanceFromAllClients sched QueryBalance p address blockParam = .ok rs →
      ∃ v flag, getConsensusBalance env rs address = some (v, flag) ∧
        GetBalance env ⟨p.toPool sched QueryBalance⟩ address blockParam = some (.ok v)) := by
  constructor
  · intro err herr
    simp [GetBalance, PoolStruct.toPool, herr]
  · intro rs hrs
    have hne : rs ≠ [] := by
      intro hnil
      subst hnil
      simp only [QueryBalanceFromAllClients] at hrs
      split at hrs
      · cases hrs
      · split at hrs
        · cases hrs
        · rename_i hlen
          injection hrs with hrs
          rw [hrs] at hlen
          exact hlen rfl
    obtain ⟨v, hv, _⟩ := getConsensusBalance_spec env henv rs address hne
    exact ⟨v, _, hv, by simp [GetBalance, PoolStruct.toPool, hrs, hv]⟩

/-- Three endpoints answering 1000, 2000, 1000: the balance is 1000. -/
theorem GetBalance_composes_witness :
    stdEnv.Lawful ∧
      ((∀ err, QueryBalanceFromAllClients inOrderScheduler discrepancyAnswers threeClients
            "0x123" "latest" = .error err →
          GetBalance stdEnv ⟨threeClients.toPool inOrderScheduler discrepancyAnswers⟩ "0x123"
            "latest" = some (.error ("failed to query balances: " ++ err))) ∧
        (∀ rs, QueryBalanceFromAllClients inOrderScheduler discrepancyAnswers threeClients
            "0x123" "latest" = .ok rs →
          ∃ v flag, getConsensusBalance stdEnv rs "0x123" = some (v, flag) ∧
            GetBalance stdEnv ⟨threeClients.toPool inOrderScheduler discrepancyAnswers⟩ "0x123"
              "latest" = some (.ok v))) ∧
      QueryBalanceFromAllClients inOrderScheduler discrepancyAnswers threeClients "0x123"
          "latest" =
        .ok [⟨"client1", .int 1000, none⟩, ⟨"client2", .int 2000, none⟩,
          ⟨"client3", .int 1000, none⟩] ∧
      GetBalance stdEnv ⟨threeClients.toPool inOrderScheduler discrepancyAnswers⟩ "0x123"
          "latest" = some (.ok (.int 1000)) :=
  ⟨stdEnv_lawful,
    GetBalance_composes stdEnv stdEnv_lawful inOrderScheduler discrepancyAnswers threeClients
      "0x123" "latest",
    by rfl, by rfl⟩

/-- C10: for every pool, `GetAvailableClients` returns the sequence of
`GetAllClients` filtered by the availability flag: exactly the endpoints whose
flag is true, each as often as configured, in configuration order. -/
theorem GetAvailableClients_filter (p : PoolStruct) :
    GetAvailableClients p = listAvailableSpec p ∧
      (GetAvailableClients p).Sublist (GetAllClients p) ∧
      (∀ c, c ∈ GetAvailableClients p ↔ c ∈ GetAllClients p ∧ c.IsAvailable = true) ∧
      ∀ c, c.IsAvailable = true →
        (GetAvailableClients p).count c = (GetAllClients p).count c := by
  have heq : GetAvailableClients p = listAvailableSpec p := by
    rw [GetAvailableClients_eq_filter, listAvailableSpec, GetAllClients]
  refine ⟨heq, ?_, ?_, ?_⟩
  · rw [heq]; exact List.filter_sublist _
  · intro c
    rw [heq, listAvailableSpec, List.mem_filter]
  · intro c hc
    rw [heq, listAvailableSpec]
    exact List.count_filter (by simpa using hc)

/-! ## Registry updates -/

theorem setFirstMatch_names (l : List Client) (clientName : String) (isAvailable : Bool) :
    (setFirstMatch l clientName isAvailable).map (fun c => c.Name) = l.map fun c => c.Name := by
  induction l with
  | nil => rfl
  | cons c rest ih =>
    by_cases hc : c.Name = clientName <;> simp [setFirstMatch, hc, ih]

theorem setFirstMatch_unknown (l : List Client) (clientName : String) (isAvailable : Bool)
    (h : ∀ c ∈ l, c.Name ≠ clientName) : setFirstMatch l clientName isAvailable = l := by
  induction l with
  | nil => rfl
  | cons c rest ih =>
    have hc : c.Name ≠ clientName := h c (List.mem_cons_self _ _)
    have hrest := ih fun d hd => h d (List.mem_cons_of_mem _ hd)
    simp [setFirstMatch, hc, hrest]

theorem setFirstMatch_other (l : List Client) (clientName : String) (isAvailable : Bool) :
    ∀ j, j ≠ (l.map fun c => c.Name).indexOf clientName →
      (setFirstMatch l clientName isAvailable)[j]? = l[j]? := by
  induction l with
  | nil => intro j _; rfl
  | cons c rest ih =>
    intro j hj
    by_cases hc : c.Name = clientName
    · have hj0 : j ≠ 0 := by simpa [List.indexOf_cons, hc] using hj
      obtain ⟨k, rfl⟩ := Nat.exists_eq_succ_of_ne_zero hj0
      simp [setFirstMatch, hc]
    · have hb : (c.Name == clientName) = false := by simpa using hc
      cases j with
      | zero => simp [setFirstMatch, hc]
      | succ k =>
        have hk : k ≠ (rest.map fun c => c.Name).indexOf clientName := by
          intro hk
          apply hj
          simp [List.indexOf_cons, hb, hk]
        simp [setFirstMatch, hc, ih k hk]

theorem setFirstMatch_first (l : List Client) (clientName : String) (isAvailable : Bool) :
    (setFirstMatch l clientName isAvailable)[(l.map fun c => c.Name).indexOf clientName]? =
      (l[(l.map fun c => c.Name).indexOf clientName]?).map
        fun c => { c with IsAvailable := isAvailable } := by
  induction l with
  | nil => rfl
  | cons c rest ih =>
    by_cases hc : c.Name = clientName
    · simp [setFirstMatch, hc, List.indexOf_cons]
    · have hb : (c.Name == clientName) = false := by simpa using hc
      simp [setFirstMatch, hc, List.indexOf_cons, hb, ih]

theorem setFirstMatch_unique (l : List Client) (clientName : String) (isAvailable : Bool)
    (hnd : (l.map fun c => c.Name).Nodup) :
    ∀ c ∈ setFirstMatch l clientName isAvailable, c.Name = clientName →
      c.IsAvailable = isAvailable := by
  induction l with
  | nil => intro c hc; simp [setFirstMatch] at hc
  | cons d rest ih =>
    have hnd2 : d.Name ∉ rest.map (fun c => c.Name) ∧ (rest.map fun c => c.Name).Nodup := by
      simpa using hnd
    intro c hc hname
    by_cases hd : d.Name = clientName
    · simp only [setFirstMatch, hd, if_true, List.mem_cons] at hc
      rcases hc with hc | hc
      · rw [hc]
      · exfalso
        apply hnd2.1
        rw [hd, ← hname]
        exact List.mem_map.2 ⟨c, hc, rfl⟩
    · simp only [setFirstMatch, hd, if_false, List.mem_cons] at hc
      rcases hc with hc | hc
      · rw [hc] at hname; exact absurd hname hd
      · exact ih hnd2.2 c hc hname

theorem poolNames_SetClientAvailability (p : PoolStruct) (clientName : String)
    (isAvailable : Bool) :
    poolNames (SetClientAvailability p clientName isAvailable) = poolNames p := by
  simp [poolNames, SetClientAvailability, setFirstMatch_names]

theorem poolNames_afterUpdates (updates : List (String × Bool)) :
    ∀ p : PoolStruct, poolNames (afterUpdates p updates) = poolNames p := by
  induction updates with
  | nil => intro p; rfl
  | cons u rest ih =>
    intro p
    simp only [afterUpdates, List.foldl_cons]
    exact (ih _).trans (poolNames_SetClientAvailability p u.1 u.2)

theorem foldl_NewClient (l : List ClientConfig) :
    ∀ acc : List Client,
      l.foldl (fun clients cfg => clients ++ [NewClient cfg]) acc = acc ++ l.map NewClient := by
  induction l with
  | nil => intro acc; simp
  | cons c rest ih => intro acc; simp [List.foldl_cons, ih]

theorem NewPool_ok (clientConfigs : List ClientConfig) (hne : clientConfigs ≠ []) :
    NewPool clientConfigs = .ok { clients := clientConfigs.map NewClient } := by
  simp [NewPool, hne, foldl_NewClient]

/-! ## One balance query -/

theorem QueryBalance_rpc_error (transport : Transport) (DecodeBig : String → Except String Int)
    (c : Client) (address blockParam body : String) (envelope : Envelope) (e : rpcError)
    (hreply : transport c address blockParam = .response 200 body (.ok envelope))
    (herr : envelope.error = some e) (hmsg : e.Message ≠ "") :
    QueryBalance transport DecodeBig c address blockParam =
      .error ("RPC error: " ++ e.Message ++ " (code: " ++ fmtInt e.Code ++ ")") := by
  simp [QueryBalance, hreply, decodeEnvelope, herr, hmsg]

/-! ## Registry: unknown name, known name, unique names -/

/-- C11: for every pool, every name that no endpoint of the pool carries and
every boolean, `SetClientAvailability` leaves the pool unchanged: every flag,
every member and the order stay as they were. -/
theorem SetClientAvailability_unknown (p : PoolStruct) (clientName : String)
    (isAvailable : Bool) (hunknown : ∀ c ∈ p.clients, c.Name ≠ clientName) :
    SetClientAvailability p clientName isAvailable = p := by
  simp [SetClientAvailability, setFirstMatch_unknown p.clients clientName isAvailable hunknown]

/-- The name `c` is not carried by the two endpoints `a` and `b`. -/
theorem SetClientAvailability_unknown_witness :
    (∀ c ∈ twoClients.clients, c.Name ≠ "c") ∧
      SetClientAvailability twoClients "c" false = twoClients :=
  ⟨by decide, SetClientAvailability_unknown twoClients "c" false (by decide)⟩

/-- C12, as stated, fails: in a pool built from two configurations with one
name, `SetClientAvailability` sets the flag of the first endpoint only; the
second endpoint with that name keeps its flag. -/
theorem SetClientAvailability_same_name_counterexample :
    NewPool [⟨"http://a", "node", 10⟩, ⟨"http://b", "node", 10⟩] = .ok sameNameClients ∧
      SetClientAvailability sameNameClients "node" false =
        ⟨[⟨"http://a", "node", 10, false⟩, ⟨"http://b", "node", 10, true⟩]⟩ ∧
      ∃ c ∈ (SetClientAvailability sameNameClients "node" false).clients,
        c.Name = "node" ∧ c.IsAvailable ≠ false :=
  ⟨by rfl, by decide, by decide⟩

/-- C12, amended: after `SetClientAvailability(name, b)` on a pool that has
an endpoint with that name, the sequence keeps its names and order, the first
endpoint with that name is the old one with flag `b`, every endpoint at
another position is unchanged, so every endpoint with a different name keeps
its flag; when the names are pairwise distinct, every endpoint with that name
has flag `b`. -/
theorem SetClientAvailability_known (p : PoolStruct) (clientName : String)
    (isAvailable : Bool) (hknown : ∃ c ∈ p.clients, c.Name = clientName) :
    poolNames (SetClientAvailability p clientName isAvailable) = poolNames p ∧
      (SetClientAvailability p clientName isAvailable).clients.length = p.clients.length ∧
      (∃ c, p.clients[(poolNames p).indexOf clientName]? = some c ∧ c.Name = clientName ∧
        (SetClientAvailability p clientName isAvailable).clients[(poolNames p).indexOf
          clientName]? = some { c with IsAvailable := isAvailable }) ∧
      (∀ j : Nat, j ≠ (poolNames p).indexOf clientName →
        (SetClientAvailability p clientName isAvailable).clients[j]? = p.clients[j]?) ∧
      (∀ (j : Nat) (c : Client), p.clients[j]? = some c → c.Name ≠ clientName →
        (SetClientAvailability p clientName isAvailable).clients[j]? = some c) ∧
      ((poolNames p).Nodup →
        ∀ c ∈ (SetClientAvailability p clientName isAvailable).clients,
          c.Name = clientName → c.IsAvailable = isAvailable) := by
  have hnames := poolNames_SetClientAvailability p clientName isAvailable
  have hmem : clientName ∈ poolNames p := by
    obtain ⟨c, hc, hname⟩ := hknown
    exact List.mem_map.2 ⟨c, hc, hname⟩
  have hlt : (poolNames p).indexOf clientName < p.clients.length := by
    have := List.indexOf_lt_length.2 hmem
    simpa [poolNames] using this
  have hget : (poolNames p)[(poolNames p).indexOf clientName]? = some clientName := by
    rw [List.getElem?_eq_getElem (List.indexOf_lt_length.2 hmem)]
    simp
  have hname_at : ∀ (j : Nat) (c : Client), p.clients[j]? = some c →
      (poolNames p)[j]? = some c.Name := by
    intro j c hc
    unfold poolNames
    rw [List.getElem?_map, hc]
    rfl
  refine ⟨hnames, ?_, ?_, ?_, ?_, ?_⟩
  · have := congrArg List.length hnames
    simpa [poolNames] using this
  · obtain ⟨c, hc⟩ : ∃ c, p.clients[(poolNames p).indexOf clientName]? = some c :=
      ⟨_, List.getElem?_eq_getElem hlt⟩
    refine ⟨c, hc, ?_, ?_⟩
    · have := hname_at _ c hc
      rw [hget] at this
      exact (Option.some.inj this).symm
    · have hfirst := setFirstMatch_first p.clients clientName isAvailable
      have hc2 : p.clients[(p.clients.map fun c => c.Name).indexOf clientName]? = some c := hc
      rw [hc2] at hfirst
      exact hfirst
  · intro j hj
    exact setFirstMatch_other p.clients clientName isAvailable j hj
  · intro j c hc hname
    have hj : j ≠ (poolNames p).indexOf clientName := by
      intro hj
      subst hj
      have := hname_at _ c hc
      rw [hget] at this
      exact hname (Option.some.inj this).symm
    rw [← hc]
    exact setFirstMatch_other p.clients clientName isAvailable j hj
  · intro hnd
    exact setFirstMatch_unique p.clients clientName isAvailable hnd

/-- The endpoint `b` of the pool `a`, `b` is flagged unavailable. -/
theorem SetClientAvailability_known_witness :
    (∃ c ∈ twoClients.clients, c.Name = "b") ∧
      SetClientAvailability twoClients "b" false =
        ⟨[⟨"http://a", "a", 10, true⟩, ⟨"http://b", "b", 10, false⟩]⟩ ∧
      (poolNames (SetClientAvailability twoClients "b" false) = poolNames twoClients ∧
        (SetClientAvailability twoClients "b" false).clients.length =
          twoClients.clients.length ∧
        (∃ c, twoClients.clients[(poolNames twoClients).indexOf "b"]? = some c ∧
          c.Name = "b" ∧
          (SetClientAvailability twoClients "b" false).clients[(poolNames twoClients).indexOf
            "b"]? = some { c with IsAvailable := false }) ∧
        (∀ j : Nat, j ≠ (poolNames twoClients).indexOf "b" →
          (SetClientAvailability twoClients "b" false).clients[j]? = twoClients.clients[j]?) ∧
        (∀ (j : Nat) (c : Client), twoClients.clients[j]? = some c → c.Name ≠ "b" →
          (SetClientAvailability twoClients "b" false).clients[j]? = some c) ∧
        ((poolNames twoClients).Nodup →
          ∀ c ∈ (SetClientAvailability twoClients "b" false).clients,
            c.Name = "b" → c.IsAvailable = false)) :=
  ⟨by decide, by decide, SetClientAvailability_known twoClients "b" false (by decide)⟩

/-- C13, as stated, fails: an environment that gives two endpoints the same
name yields two configurations with that name, and `NewPool` builds a pool in
which the name occurs twice. -/
theorem NewPool_duplicate_names_counterexample :
    getClientConfigsFromEnv duplicateNameEnv 3 =
        some [⟨"http://a", "node", 10⟩, ⟨"http://b", "node", 10⟩] ∧
      NewPool [⟨"http://a", "node", 10⟩, ⟨"http://b", "node", 10⟩] = .ok sameNameClients ∧
      poolNames sameNameClients = ["node", "node"] ∧
      ¬ (poolNames sameNameClients).Nodup :=
  ⟨by decide, by rfl, by decide, by decide⟩

/-- C13, amended: `NewPool` succeeds on every non-empty configuration list,
and in every pool state reached from its result by `SetClientAvailability`
calls the endpoint names are the configured names in configuration order, so
they are pairwise distinct exactly when the configured names are. -/
theorem NewPool_names_preserved (clientConfigs : List ClientConfig)
    (hne : clientConfigs ≠ []) :
    ∃ p, NewPool clientConfigs = .ok p ∧
      ∀ updates : List (String × Bool),
        poolNames (afterUpdates p updates) = clientConfigs.map (fun cfg => cfg.Name) ∧
          ((poolNames (afterUpdates p updates)).Nodup ↔
            (clientConfigs.map fun cfg => cfg.Name).Nodup) := by
  refine ⟨_, NewPool_ok clientConfigs hne, ?_⟩
  intro updates
  have hnames : poolNames (afterUpdates { clients := clientConfigs.map NewClient } updates) =
      clientConfigs.map fun cfg => cfg.Name := by
    rw [poolNames_afterUpdates]
    simp [poolNames, NewClient]
  exact ⟨hnames, by rw [hnames]⟩

/-- Two configurations named `a` and `b`. -/
theorem NewPool_names_preserved_witness :
    ([⟨"http://a", "a", 10⟩, ⟨"http://b", "b", 10⟩] : List ClientConfig) ≠ [] ∧
      NewPool [⟨"http://a", "a", 10⟩, ⟨"http://b", "b", 10⟩] = .ok twoClients ∧
      ∃ p, NewPool [⟨"http://a", "a", 10⟩, ⟨"http://b", "b", 10⟩] = .ok p ∧
        ∀ updates : List (String × Bool),
          poolNames (afterUpdates p updates) =
              ([⟨"http://a", "a", 10⟩, ⟨"http://b", "b", 10⟩] : List ClientConfig).map
                (fun cfg => cfg.Name) ∧
            ((poolNames (afterUpdates p updates)).Nodup ↔
              (([⟨"http://a", "a", 10⟩, ⟨"http://b", "b", 10⟩] : List ClientConfig).map
                fun cfg => cfg.Name).Nodup) :=
  ⟨by decide, by rfl,
    NewPool_names_preserved [⟨"http://a", "a", 10⟩, ⟨"http://b", "b", 10⟩] (by decide)⟩

/-! ## Error envelopes and permuted replies -/

/-- C14 fails on the code at this input: a reply with status 200 whose
envelope carries a result `0x10` and an `error` member with code -32000 and an
empty message makes `QueryBalance` return the balance 16 without error, and
`QueryBalanceFromAllClients` forwards it into the result set; the health probe
counts the same envelope as a failure. -/
theorem QueryBalance_empty_message_forwarded :
    QueryBalance (fun _ _ _ => emptyMessageReply) hexDecodeBig ⟨"http://a", "a", 10, true⟩
        "0x123" "latest" = .ok 16 ∧
      QueryBalanceFromAllClients inOrderScheduler
          (QueryBalance (fun _ _ _ => emptyMessageReply) hexDecodeBig) oneClient "0x123"
          "latest" = .ok [⟨"a", .int 16, none⟩] ∧
      CheckClientHealth emptyMessageReply = false :=
  ⟨by rfl, by rfl, by rfl⟩

/-- C15: for every two reply lists that are permutations of each other and in
which one value occurs strictly more often than every other value,
`getConsensusBalance` returns that value and the same flag for both. -/
theorem getConsensusBalance_perm (env : GoEnv) (henv : env.Lawful)
    (rs₁ rs₂ : List BalanceResponse) (address : String) (hperm : rs₁.Perm rs₂)
    (m : BigIntPtr)
    (hm : ∀ w, w ≠ m → (balances rs₁).count w < (balances rs₁).count m) :
    rs₁ ≠ [] ∧ rs₂ ≠ [] ∧
      ∃ flag, getConsensusBalance env rs₁ address = some (m, flag) ∧
        getConsensusBalance env rs₂ address = some (m, flag) := by
  have hbal : (balances rs₁).Perm (balances rs₂) := hperm.map _
  have hne₁ : rs₁ ≠ [] := by
    intro hnil
    subst hnil
    have hw : ∃ w : BigIntPtr, w ≠ m := by
      cases m with
      | nil => exact ⟨.int 0, by simp⟩
      | int v => exact ⟨.nil, by simp⟩
    obtain ⟨w, hw⟩ := hw
    have := hm w hw
    simp [balances] at this
  have hne₂ : rs₂ ≠ [] := by
    intro hnil
    subst hnil
    exact hne₁ hperm.eq_nil
  have hm₂ : ∀ w, w ≠ m → (balances rs₂).count w < (balances rs₂).count m := by
    intro w hw
    rw [← hbal.count_eq, ← hbal.count_eq]
    exact hm w hw
  obtain ⟨v₁, hv₁, _, hmax₁, _⟩ := getConsensusBalance_spec env henv rs₁ address hne₁
  obtain ⟨v₂, hv₂, _, hmax₂, _⟩ := getConsensusBalance_spec env henv rs₂ address hne₂
  have h₁ : v₁ = m := by
    by_contra hne
    have := hm v₁ hne
    have := hmax₁ m
    omega
  have h₂ : v₂ = m := by
    by_contra hne
    have := hm₂ v₂ hne
    have := hmax₂ m
    omega
  have hflag : decide (∃ a ∈ balances rs₂, ∃ b ∈ balances rs₂, a ≠ b) =
      decide (∃ a ∈ balances rs₁, ∃ b ∈ balances rs₁, a ≠ b) := by
    apply decide_eq_decide.2
    constructor
    · rintro ⟨a, ha, b, hb, hab⟩
      exact ⟨a, hbal.mem_iff.2 ha, b, hbal.mem_iff.2 hb, hab⟩
    · rintro ⟨a, ha, b, hb, hab⟩
      exact ⟨a, hbal.mem_iff.1 ha, b, hbal.mem_iff.1 hb, hab⟩
  refine ⟨hne₁, hne₂, decide (∃ a ∈ balances rs₁, ∃ b ∈ balances rs₁, a ≠ b), ?_, ?_⟩
  · rw [hv₁, h₁]
  · rw [hv₂, h₂, hflag]

/-- The replies `[100, 200, 100]` and `[200, 100, 100]`: 100 for both; the
tied replies `[100, 200]` and `[200, 100]` give 100 and 200. -/
theorem getConsensusBalance_perm_witness :
    stdEnv.Lawful ∧ (repliesOf [100, 200, 100]).Perm (repliesOf [200, 100, 100]) ∧
      (∀ w, w ≠ BigIntPtr.int 100 →
        (balances (repliesOf [100, 200, 100])).count w <
          (balances (repliesOf [100, 200, 100])).count (.int 100)) ∧
      (repliesOf [100, 200, 100] ≠ [] ∧ repliesOf [200, 100, 100] ≠ [] ∧
        ∃ flag, getConsensusBalance stdEnv (repliesOf [100, 200, 100]) "0x123" =
            some (.int 100, flag) ∧
          getConsensusBalance stdEnv (repliesOf [200, 100, 100]) "0x123" =
            some (.int 100, flag)) ∧
      getConsensusBalance stdEnv (repliesOf [100, 200]) "0x123" = some (.int 100, true) ∧
      getConsensusBalance stdEnv (repliesOf [200, 100]) "0x123" = some (.int 200, true) :=
  have hm : ∀ w, w ≠ BigIntPtr.int 100 →
      (balances (repliesOf [100, 200, 100])).count w <
        (balances (repliesOf [100, 200, 100])).count (.int 100) := by
    intro w hw
    by_cases h2 : w = .int 200
    · subst h2; decide
    · have h3 : BigIntPtr.int 100 ≠ w := fun h => hw h.symm
      have h4 : BigIntPtr.int 200 ≠ w := fun h => h2 h.symm
      simp [balances, repliesOf, List.count_cons, h3, h4]
  have hp : (repliesOf [100, 200, 100]).Perm (repliesOf [200, 100, 100]) :=
    List.Perm.swap _ _ _
  ⟨stdEnv_lawful, hp, hm,
    getConsensusBalance_perm stdEnv stdEnv_lawful (repliesOf [100, 200, 100])
      (repliesOf [200, 100, 100]) "0x123" hp (.int 100) hm,
    by decide, by decide⟩

end Alluvial
